/-
Verification of the DeAI simulated decentralized-network core.

This file gives a shallow embedding, in Lean 4, of the core logic of the
repository: the content-addressed store (`src/utils/ipfsStorage.ts`), the
persistence helpers (`src/utils/databaseManager.ts`), the network graph
simulation and message bus (`decentralizedNetwork.ts`) and the query
orchestrator (`src/utils/llmSimulation.ts`).  JavaScript machine integers
are modelled as `Int` with explicit reduction modulo 2^32 where the source
relies on 32-bit overflow; `Math.random()` draws are modelled as explicit
oracle parameters; promise resolution/rejection is modelled with `Except`;
the module-level mutable state is passed explicitly.
-/
import Mathlib

namespace DeAI

set_option maxRecDepth 100000

/-! ## Content identifier generation (`generateCID` in ipfsStorage.ts)

The source hashes the JavaScript string with

```
let hash = 0;
for (let i = 0; i < content.length; i++) {
  const char = content.charCodeAt(i);
  hash = ((hash << 5) - hash) + char;
  hash = hash & hash; // Convert to 32bit integer
}
return 'Qm' + Math.abs(hash).toString(16).padStart(44, '0');
```

`charCodeAt` walks UTF-16 code units, `<<` and `&` coerce to signed 32-bit
integers (`ToInt32`), `Math.abs(hash).toString(16)` prints lowercase hex and
`padStart(44, '0')` left-pads with zeroes up to length 44. -/

/-- JavaScript `ToInt32`: reduce an integer to the signed 32-bit range
`[-2^31, 2^31)`. -/
def toInt32 (n : Int) : Int :=
  (n + 2 ^ 31) % 2 ^ 32 - 2 ^ 31

/-- The UTF-16 code units of one character, as produced by `charCodeAt`:
characters below `0x10000` are a single unit, larger scalar values become a
surrogate pair. -/
def utf16CodeUnits (c : Char) : List Nat :=
  if c.toNat < 0x10000 then [c.toNat]
  else [0xD800 + (c.toNat - 0x10000) / 0x400, 0xDC00 + (c.toNat - 0x10000) % 0x400]

/-- The UTF-16 code-unit sequence of a string (what `charCodeAt` iterates). -/
def utf16Units (s : String) : List Nat :=
  s.data.flatMap utf16CodeUnits

/-- One iteration of the hash loop: `hash = ((hash << 5) - hash) + char`
followed by the `hash = hash & hash` 32-bit coercion.  `hash << 5` itself
coerces to 32 bits before the subtraction. -/
def hashStep (h : Int) (c : Nat) : Int :=
  toInt32 (toInt32 (h * 32) - h + c)

/-- The rolling 32-bit hash of the whole string. -/
def jsHash (s : String) : Int :=
  (utf16Units s).foldl hashStep 0

/-- Lowercase hexadecimal digit characters, as produced by
`Number.prototype.toString(16)`. -/
def hexDigitChar (n : Nat) : Char :=
  match n with
  | 0 => '0' | 1 => '1' | 2 => '2' | 3 => '3'
  | 4 => '4' | 5 => '5' | 6 => '6' | 7 => '7'
  | 8 => '8' | 9 => '9' | 10 => 'a' | 11 => 'b'
  | 12 => 'c' | 13 => 'd' | 14 => 'e' | _ => 'f'

/-- Hexadecimal digit expansion with explicit fuel (structural recursion,
so that the kernel can evaluate it; `fuel ≥ 1 + log16 n` suffices and the
wrapper below always supplies enough). -/
def natToHexAux (fuel n : Nat) : List Char :=
  match fuel with
  | 0 => []
  | fuel + 1 =>
      if n < 16 then [hexDigitChar n]
      else natToHexAux fuel (n / 16) ++ [hexDigitChar (n % 16)]

/-- Hexadecimal rendering of a natural number, most significant digit first
(the digits of `n.toString(16)` in JavaScript). -/
def natToHex (n : Nat) : List Char :=
  natToHexAux (n + 1) n

/-- `String.prototype.padStart(len, c)` on a character list. -/
def padStart (l : List Char) (len : Nat) (c : Char) : List Char :=
  List.replicate (len - l.length) c ++ l

/-- `generateCID` from ipfsStorage.ts: `'Qm'` followed by the absolute value
of the 32-bit hash printed in hex and zero-padded to 44 characters. -/
def generateCID (content : String) : String :=
  String.mk ('Q' :: 'm' :: padStart (natToHex (jsHash content).natAbs) 44 '0')

/-- A character is a lowercase hexadecimal digit. -/
def isHexChar (c : Char) : Bool :=
  ('0' ≤ c && c ≤ '9') || ('a' ≤ c && c ≤ 'f')

/-! ## Metadata values and shallow merge

Content metadata is a JavaScript object `Record<string, any>`; we model it
as an association list from keys to a small dynamic value type.  The object
spread `{ ...old, ...patch }` keeps `old`'s keys (with `patch`'s values
where both have the key) followed by `patch`'s new keys; `patch` wins on
conflicts. -/

/-- A metadata value (enough of JavaScript's `any` for the records this
program builds). -/
inductive MetaVal where
  | num (n : Int)
  | str (s : String)
  | boolean (b : Bool)
deriving DecidableEq, Repr

/-- Metadata objects: association lists keyed by string. -/
abbrev Metadata := List (String × MetaVal)

/-- Lookup of a key in a metadata object (first binding wins, as in an
object where keys are unique). -/
def metaLookup (m : Metadata) (k : String) : Option MetaVal :=
  (m.find? (fun p => p.1 = k)).map (·.2)

/-- JavaScript object spread `{ ...old, ...patch }`: every key of `patch`
takes `patch`'s value; keys only in `old` keep their value. -/
def mergeMeta (old patch : Metadata) : Metadata :=
  old.filter (fun p => !(patch.any (fun q => q.1 = p.1))) ++ patch

/-! ## The content store (ipfsStorage.ts over databaseManager.ts)

IndexedDB object stores are key-value collections (the `content` store is
keyed by `cid`); `store.put` upserts by key and `store.get` fetches by
key.  We model the `content` collection as a list of records with
upsert/find semantics, which is the state the ipfsStorage functions
observe. -/

/-- A stored content record (`IPFSContent` in ipfsStorage.ts). -/
structure IPFSContent where
  cid : String
  content : String
  timestamp : Nat
  size : Nat
  type : String
  metadata : Option Metadata
deriving DecidableEq, Repr

/-- IndexedDB `put` on the `content` collection: replace the record with
the same key if present, otherwise add the record. -/
def upsertContent (s : List IPFSContent) (r : IPFSContent) : List IPFSContent :=
  if s.any (fun x => x.cid = r.cid) then
    s.map (fun x => if x.cid = r.cid then r else x)
  else s ++ [r]

/-- IndexedDB `get` on the `content` collection. -/
def findContent (s : List IPFSContent) (cid : String) : Option IPFSContent :=
  s.find? (fun x => x.cid = cid)

/-- `addToIPFS(content, metadata?)`: computes the CID, builds the record
(`size` is the UTF-8 byte length of the content, `type` is
`typeof content = "string"`) and upserts it; returns the CID together with
the updated store. -/
def addToIPFS (s : List IPFSContent) (content : String) (metadata : Option Metadata)
    (now : Nat) : String × List IPFSContent :=
  let cid := generateCID content
  (cid, upsertContent s
    { cid := cid, content := content, timestamp := now,
      size := content.utf8ByteSize, type := "string", metadata := metadata })

/-- `getFromIPFS(cid)`: fetch by key, throwing `Content not found` when the
key is absent. -/
def getFromIPFS (s : List IPFSContent) (cid : String) : Except String String :=
  match findContent s cid with
  | some r => .ok r.content
  | none => .error "Content not found"

/-- `updateContentMetadata(cid, metadata)`: fetch the record; when absent
return `false` with the store untouched, otherwise shallow-merge the patch
into the record's metadata (an absent metadata field spreads as the empty
object) and upsert; returns `true`. -/
def updateContentMetadata (s : List IPFSContent) (cid : String) (patch : Metadata) :
    Bool × List IPFSContent :=
  match findContent s cid with
  | none => (false, s)
  | some r =>
      (true, upsertContent s { r with metadata := some (mergeMeta (r.metadata.getD []) patch) })

/-! ## `getAllFromStore` (databaseManager.ts)

```
export const getAllFromStore = async <T>(storeName: string): Promise<T[]> => {
  try {
    const db = await initDatabase();
    return new Promise((resolve, reject) => { ... getAll ... });
  } catch (error) {
    return [];
  }
};
```

The `try`/`catch` guards the awaited `initDatabase()` call, so an open
failure lands in the `catch` and yields `[]`.  The read transaction's
promise, however, is *returned* from inside the `try` rather than awaited:
in an async function, `return promise` completes the `try` block normally
and the outer promise merely adopts `promise` afterwards, so a rejection
raised by the read request (`request.onerror`) is NOT routed through the
`catch` and propagates to the caller.  We model the two backend outcomes
(database open; `getAll` read) as explicit parameters. -/

/-- `getAllFromStore`, as a function of the backend's open outcome and of
the read-transaction outcome. -/
def getAllFromStore (openRes : Except String Unit) (readAll : Except String (List α)) :
    Except String (List α) :=
  match openRes with
  | .error _ => .ok []
  | .ok _ => readAll

/-! ## The network graph simulation (decentralizedNetwork.ts)

Module state: a node list, a message log and a listener registry, all
module-level mutable arrays in the source.  Listener functions are
compared by JavaScript reference identity; we model them as values of an
arbitrary type with decidable equality.  Every `Math.random()` draw is an
explicit oracle parameter. -/

/-- Node variant tag (`'llm' | 'ipfs' | 'standard'`). -/
inductive NodeType where
  | llm
  | ipfs
  | standard
deriving DecidableEq, Repr, Inhabited

/-- Message type tag (`'query' | 'response' | 'storage' | 'retrieval'`). -/
inductive MsgType where
  | query
  | response
  | storage
  | retrieval
deriving DecidableEq, Repr

/-- A simulated network node (`NetworkNode`). -/
structure NetworkNode where
  id : String
  type : NodeType
  isActive : Bool
  connectedNodes : List String
  createdAt : Nat
  lastSeen : Nat
deriving DecidableEq, Repr, Inhabited

/-- A simulated network message (`NetworkMessage`). -/
structure NetworkMessage where
  id : String
  fromNodeId : String
  toNodeId : String
  type : MsgType
  content : String
  timestamp : Nat
  delivered : Bool
deriving DecidableEq, Repr

/-- The module-level mutable state of decentralizedNetwork.ts:
`networkNodes`, `networkMessages` and `messageListeners`. -/
structure NetState (L : Type) where
  nodes : List NetworkNode
  messages : List NetworkMessage
  listeners : List L
deriving DecidableEq, Repr

/-- Replace the element at position `p` by `f` applied to it (no-op when
`p` is out of range); models in-place mutation of one array element. -/
def modifyAt (l : List α) (p : Nat) (f : α → α) : List α :=
  match l[p]? with
  | some x => l.set p (f x)
  | none => l

/-- The random wiring loop of `initializeNetwork` for one node:
`k` draw attempts (`connections`); each attempt picks index `draw i` into
the list `others` of the other nodes' ids and appends the candidate unless
it is already connected.  In the source the index is
`Math.floor(Math.random() * otherNodes.length)`, always in range; `draw i`
is reduced modulo `others.length` to model that in-range draw. -/
def wireNode (conn : List String) (others : List String) (k : Nat) (draw : Nat → Nat) :
    List String :=
  (List.range k).foldl
    (fun acc i =>
      let cand := others.getD (draw i % others.length) ""
      if cand ∈ acc then acc else acc ++ [cand])
    conn

/-- The per-node connection count draw
`Math.floor(2 + Math.random() * 3)`, as a function of the uniform draw
`q = Math.random() ∈ [0, 1)`. -/
def connectionCount (q : ℚ) : Nat :=
  ⌊(2 : ℚ) + q * 3⌋.toNat

/-- Append `cid` to a node's connection list unless already present (the
guarded `push` in the source). -/
def pushConn (n : NetworkNode) (cid : String) : NetworkNode :=
  if cid ∈ n.connectedNodes then n else { n with connectedNodes := n.connectedNodes ++ [cid] }

/-- Positions of the ipfs-typed nodes in the current node list (the
`filter(n => n.type === 'ipfs')` of the source, tracked by index). -/
def ipfsPositions (st : List NetworkNode) : List Nat :=
  (List.range st.length).filter (fun j => (st.getD j default).type = NodeType.ipfs)

/-- One iteration of the `Ensure LLM is connected to all IPFS nodes`
block: connect the node at position `i` to the ipfs node at position `j`
and the ipfs node back to it, skipping already-present entries. -/
def ensureStep (i : Nat) (st : List NetworkNode) (j : Nat) : List NetworkNode :=
  match st[j]?, st[i]? with
  | some ipfsN, some selfN =>
      let st1 := modifyAt st i (fun n => pushConn n ipfsN.id)
      modifyAt st1 j (fun n => pushConn n selfN.id)
  | _, _ => st

/-- The `Ensure LLM is connected to all IPFS nodes` block: for every ipfs
node in order, run `ensureStep` for the node at position `i` (the one
whose id is `llm-main`). -/
def ensureLlmIpfs (st0 : List NetworkNode) (i : Nat) : List NetworkNode :=
  (ipfsPositions st0).foldl (ensureStep i) st0

/-- One iteration of the `newNodes.forEach(node => ...)` wiring loop, for
the node at position `i`: random wiring against all other nodes' ids, then
the llm-to-ipfs bidirectional fix-up when the node's id is `llm-main`.
`ks i` is the node's drawn connection count and `draws i` its sequence of
index draws. -/
def initStep (ks : Nat → Nat) (draws : Nat → Nat → Nat) (st : List NetworkNode) (i : Nat) :
    List NetworkNode :=
  match st[i]? with
  | none => st
  | some node =>
      let others := (st.filter (fun n => n.id ≠ node.id)).map (·.id)
      let st1 := st.set i
        { node with connectedNodes := wireNode node.connectedNodes others (ks i) (draws i) }
      if node.id = "llm-main" then ensureLlmIpfs st1 i else st1

/-- The node population built by `initializeNetwork` before wiring: one
llm node, five ipfs nodes, fifteen standard nodes; each standard node `i`
is active iff its `Math.random() > 0.1` draw succeeded (`activeFlag i`). -/
def initialNodes (activeFlag : Nat → Bool) (now : Nat) : List NetworkNode :=
  [{ id := "llm-main", type := .llm, isActive := true, connectedNodes := [],
     createdAt := now, lastSeen := now }]
  ++ (List.range 5).map (fun i =>
      { id := "ipfs-" ++ toString i, type := .ipfs, isActive := true, connectedNodes := [],
        createdAt := now, lastSeen := now })
  ++ (List.range 15).map (fun i =>
      { id := "node-" ++ toString i, type := .standard, isActive := activeFlag i,
        connectedNodes := [], createdAt := now, lastSeen := now })

/-- `initializeNetwork`: build the population, then run the wiring loop
over every node in order. -/
def initializeNetwork (activeFlag : Nat → Bool) (ks : Nat → Nat) (draws : Nat → Nat → Nat)
    (now : Nat) : List NetworkNode :=
  let ns := initialNodes activeFlag now
  (List.range ns.length).foldl (initStep ks draws) ns

/-- `st'` refines `st` position-wise: same length, and every node keeps
its id, type and active flag while its connection list only gains
entries.  Every step of the wiring loop has this shape. -/
def ConnGrows (st st' : List NetworkNode) : Prop :=
  st'.length = st.length ∧
  ∀ (p : Nat) (n : NetworkNode), st[p]? = some n →
    ∃ n' : NetworkNode, st'[p]? = some n' ∧ n'.id = n.id ∧ n'.type = n.type ∧
      n'.isActive = n.isActive ∧ ∀ x ∈ n.connectedNodes, x ∈ n'.connectedNodes

/-- The bidirectional llm/ipfs connectivity guarantee, as a predicate on a
node list: every node with id `llm-main` lists every ipfs node's id, and
every ipfs node lists `llm-main`. -/
def LlmIpfsLinked (st : List NetworkNode) : Prop :=
  ∀ (p : Nat) (n : NetworkNode), st[p]? = some n →
    (n.id = "llm-main" → ∀ (q : Nat) (m : NetworkNode), st[q]? = some m →
       m.type = NodeType.ipfs → m.id ∈ n.connectedNodes) ∧
    (n.type = NodeType.ipfs → "llm-main" ∈ n.connectedNodes)

/-- The synchronous listener fan-out of `sendNetworkMessage`
(`messageListeners.forEach(listener => listener(message))`): one
invocation per registry entry, in order. -/
def notifyListeners (registry : List L) (msg : NetworkMessage) : List (L × NetworkMessage) :=
  registry.map (fun l => (l, msg))

/-- The reachability check embedded in `sendNetworkMessage`: a direct
connection, or some directly connected intermediate node that exists, is
active and lists `toId`. -/
def canReach (nodes : List NetworkNode) (fromNode : NetworkNode) (toId : String) : Bool :=
  fromNode.connectedNodes.contains toId ||
  fromNode.connectedNodes.any (fun iid =>
    match nodes.find? (fun n => n.id = iid) with
    | some inter => inter.isActive && inter.connectedNodes.contains toId
    | none => false)

/-- The distinct rejection reasons of `sendNetworkMessage`
(`Node not found`, `One of the nodes is inactive`, `No path between
nodes`). -/
inductive SendError where
  | nodeNotFound
  | nodeInactive
  | noPath
deriving DecidableEq, Repr

/-- `sendNetworkMessage(fromId, toId, type, content)`.

Synchronous behaviour of the executor: look both endpoints up and reject
on a missing node, an inactive endpoint or a failed reachability check —
in that order, before any mutation.  Otherwise create the message
(`delivered=false`), append it to the in-memory log, stamp both endpoints'
`lastSeen` (mutating the objects `find` returned, i.e. the first
occurrence of each id), and notify every registered listener once with the
message.  Returns the promise outcome (on success the promise later
resolves with the message id after the delivery timer; database writes are
fire-and-forget and cannot fail the send), the updated state and the list
of listener invocations made. -/
def sendNetworkMessage (st : NetState L) (fromId toId : String) (ty : MsgType)
    (content : String) (now : Nat) (randSuffix : String) :
    Except SendError String × NetState L × List (L × NetworkMessage) :=
  match st.nodes.find? (fun n => n.id = fromId), st.nodes.find? (fun n => n.id = toId) with
  | none, _ => (.error .nodeNotFound, st, [])
  | some _, none => (.error .nodeNotFound, st, [])
  | some fromNode, some toNode =>
      if ¬ fromNode.isActive ∨ ¬ toNode.isActive then
        (.error .nodeInactive, st, [])
      else if ¬ canReach st.nodes fromNode toId then
        (.error .noPath, st, [])
      else
        let msgId := "msg-" ++ toString now ++ "-" ++ randSuffix
        let msg : NetworkMessage :=
          { id := msgId, fromNodeId := fromId, toNodeId := toId, type := ty,
            content := content, timestamp := now, delivered := false }
        let nodes1 :=
          match st.nodes.findIdx? (fun n => n.id = fromId) with
          | some p => modifyAt st.nodes p (fun n => { n with lastSeen := now })
          | none => st.nodes
        let nodes2 :=
          match nodes1.findIdx? (fun n => n.id = toId) with
          | some p => modifyAt nodes1 p (fun n => { n with lastSeen := now })
          | none => nodes1
        (.ok msgId,
         { st with nodes := nodes2, messages := st.messages ++ [msg] },
         notifyListeners st.listeners msg)

/-- `subscribeToMessages(listener)`: push the listener onto the registry. -/
def subscribeToMessages (registry : List L) (listener : L) : List L :=
  registry ++ [listener]

/-- The unsubscribe closure returned by `subscribeToMessages`:
`messageListeners = messageListeners.filter(l => l !== listener)`, applied
to whatever the registry holds at call time. -/
def unsubscribeListener [DecidableEq L] (registry : List L) (listener : L) : List L :=
  registry.filter (fun l => l ≠ listener)

/-- The reachability condition as the specification words it: `toId` is
directly in the sender's neighbor list, or some directly connected,
existing and currently-active intermediate node lists `toId` among its own
connections. -/
def ReachableOneHop (nodes : List NetworkNode) (fromNode : NetworkNode) (toId : String) :
    Prop :=
  toId ∈ fromNode.connectedNodes ∨
  ∃ iid ∈ fromNode.connectedNodes, ∃ inter,
    nodes.find? (fun n => n.id = iid) = some inter ∧
    inter.isActive = true ∧ toId ∈ inter.connectedNodes

/-! ## The query orchestrator (llmSimulation.ts) -/

/-- The first 20 characters of the prompt, as interpolated into the canned
response templates (`prompt.substring(0, 20)`; `substring` counts UTF-16
units, which agrees with counting characters on the BMP strings this demo
handles). -/
def promptSnippet (prompt : String) : String :=
  prompt.take 20

/-- `generateResponse(prompt)`: one of five canned templates, selected by
the `Math.floor(Math.random() * responses.length)` draw `idx`. -/
def generateResponse (prompt : String) (idx : Fin 5) : String :=
  let p := promptSnippet prompt
  [ "Based on your query \"" ++ p ++ "...\", I've analyzed the relevant data and found that decentralized networks offer significant advantages in terms of resilience and privacy.",
    "To answer \"" ++ p ++ "...\", I've consulted my knowledge base. The key insight is that peer-to-peer architectures eliminate single points of failure.",
    "Regarding \"" ++ p ++ "...\", several studies suggest that distributed storage solutions like IPFS provide superior content addressing compared to traditional URL-based approaches.",
    "Your question about \"" ++ p ++ "...\" is interesting. The consensus among researchers is that decentralized AI models can operate with better privacy guarantees than centralized alternatives.",
    "I've processed your request \"" ++ p ++ "...\" and found that the combination of blockchain technology with distributed file storage creates robust systems for data integrity."
  ].getD idx.val ""

/-- The record `processQuery` resolves with. -/
structure QueryResult where
  response : String
  responseCid : String
  processingPath : List String
deriving DecidableEq, Repr

/-- `processQuery(query)`: store the query, send it client → random
standard node → llm-main, generate the response, send it to a random ipfs
node, store it, and send it back ipfs node → standard node → client,
recording every hop in `processingPath`.  Each awaited send rejects the
whole orchestration with its error.  `stdIdx`/`ipfsIdx`/`respIdx` are the
`Math.floor(Math.random() * n)` draws and `rand i` the id suffix of the
`i`-th message; persistence writes are modelled as succeeding (a
persistence failure would only reject the orchestration before it returns
a result).  Listener invocations are not collected here. -/
def processQuery (st : NetState L) (cs : List IPFSContent) (query : String)
    (stdIdx : Fin 15) (ipfsIdx : Fin 5) (respIdx : Fin 5) (now : Nat) (rand : Nat → String) :
    Except SendError (QueryResult × NetState L × List IPFSContent) :=
  let (queryCid, cs1) := addToIPFS cs query none now
  let path0 := ["client"]
  let standardNodeId := "node-" ++ toString stdIdx.val
  match sendNetworkMessage st "client" standardNodeId .query queryCid now (rand 0) with
  | (.error e, _, _) => .error e
  | (.ok _, st1, _) =>
    let path1 := path0 ++ [standardNodeId]
    match sendNetworkMessage st1 standardNodeId "llm-main" .query queryCid now (rand 1) with
    | (.error e, _, _) => .error e
    | (.ok _, st2, _) =>
      let path2 := path1 ++ ["llm-main"]
      let response := generateResponse query respIdx
      let ipfsNodeId := "ipfs-" ++ toString ipfsIdx.val
      match sendNetworkMessage st2 "llm-main" ipfsNodeId .storage response now (rand 2) with
      | (.error e, _, _) => .error e
      | (.ok _, st3, _) =>
        let path3 := path2 ++ [ipfsNodeId]
        let (responseCid, cs2) := addToIPFS cs1 response none now
        match sendNetworkMessage st3 ipfsNodeId standardNodeId .response responseCid now
            (rand 3) with
        | (.error e, _, _) => .error e
        | (.ok _, st4, _) =>
          let path4 := path3 ++ [standardNodeId]
          match sendNetworkMessage st4 standardNodeId "client" .response responseCid now
              (rand 4) with
          | (.error e, _, _) => .error e
          | (.ok _, st5, _) =>
            .ok ({ response := response, responseCid := responseCid,
                   processingPath := path4 ++ ["client"] }, st5, cs2)

/-- A sequence of further `addToIPFS` calls (content, optional metadata,
timestamp), applied in order. -/
def applyAdds (s : List IPFSContent) (ops : List (String × Option Metadata × Nat)) :
    List IPFSContent :=
  ops.foldl (fun acc op => (addToIPFS acc op.1 op.2.1 op.2.2).2) s

/-! ## Lemmas about CID generation -/

theorem toInt32_bounds (n : Int) : -2 ^ 31 ≤ toInt32 n ∧ toInt32 n < 2 ^ 31 := by
  unfold toInt32
  have h1 : 0 ≤ (n + 2 ^ 31) % 2 ^ 32 := Int.emod_nonneg _ (by norm_num)
  have h2 : (n + 2 ^ 31) % 2 ^ 32 < 2 ^ 32 := Int.emod_lt_of_pos _ (by norm_num)
  omega

theorem foldl_hashStep_bounds (l : List Nat) (h : Int)
    (hh : -2 ^ 31 ≤ h ∧ h < 2 ^ 31) :
    -2 ^ 31 ≤ l.foldl hashStep h ∧ l.foldl hashStep h < 2 ^ 31 := by
  induction l generalizing h with
  | nil => exact hh
  | cons c l ih => exact ih _ (toInt32_bounds _)

theorem jsHash_natAbs_le (s : String) : (jsHash s).natAbs ≤ 2 ^ 31 := by
  have h := foldl_hashStep_bounds (utf16Units s) 0 (by norm_num)
  unfold jsHash
  omega

theorem hexDigitChar_isHex (n : Nat) : isHexChar (hexDigitChar n) = true := by
  unfold hexDigitChar
  split <;> decide

theorem natToHexAux_length_le :
    ∀ fuel k n : Nat, n < 16 ^ k → (natToHexAux fuel n).length ≤ k + 1 := by
  intro fuel
  induction fuel with
  | zero => intro k n _; simp [natToHexAux]
  | succ fuel ih =>
      intro k n hn
      unfold natToHexAux
      split
      · simp
      · rename_i h16
        have hk : 2 ≤ k := by
          by_contra hkc
          push_neg at hkc
          have hle : 16 ^ k ≤ 16 := by
            interval_cases k <;> norm_num
          omega
        have hdiv : n / 16 < 16 ^ (k - 1) := by
          rw [Nat.div_lt_iff_lt_mul (by norm_num)]
          have heq : 16 ^ (k - 1) * 16 = 16 ^ k := by
            rw [← pow_succ]
            congr 1
            omega
          rw [heq]
          exact hn
        have := ih (k - 1) (n / 16) hdiv
        simp only [List.length_append, List.length_singleton]
        omega

theorem natToHex_length_le (k n : Nat) (hn : n < 16 ^ k) : (natToHex n).length ≤ k + 1 :=
  natToHexAux_length_le _ k n hn

theorem natToHexAux_isHex :
    ∀ fuel n : Nat, ∀ c ∈ natToHexAux fuel n, isHexChar c = true := by
  intro fuel
  induction fuel with
  | zero => intro n c hc; simp [natToHexAux] at hc
  | succ fuel ih =>
      intro n c hc
      unfold natToHexAux at hc
      split at hc
      · simp only [List.mem_singleton] at hc
        subst hc
        exact hexDigitChar_isHex _
      · rcases List.mem_append.mp hc with h | h
        · exact ih _ c h
        · simp only [List.mem_singleton] at h
          subst h
          exact hexDigitChar_isHex _

theorem natToHex_isHex (n : Nat) : ∀ c ∈ natToHex n, isHexChar c = true :=
  natToHexAux_isHex _ n

/-- C3: `generateCID` is a pure deterministic function of the content
string — character-identical inputs give identical CIDs — and for every
input its result is the two-character prefix `Qm` followed by exactly 44
hexadecimal characters. -/
theorem generateCID_deterministic_and_format (c1 c2 : String) (h : c1 = c2) :
    generateCID c1 = generateCID c2 ∧
    ∃ rest : List Char, generateCID c1 = String.mk ('Q' :: 'm' :: rest) ∧
      rest.length = 44 ∧ ∀ c ∈ rest, isHexChar c = true := by
  subst h
  refine ⟨rfl, padStart (natToHex (jsHash c1).natAbs) 44 '0', rfl, ?_, ?_⟩
  · have h1 : (jsHash c1).natAbs ≤ 2 ^ 31 := jsHash_natAbs_le c1
    have h2 : (jsHash c1).natAbs < 16 ^ 8 := by
      calc (jsHash c1).natAbs ≤ 2 ^ 31 := h1
      _ < 16 ^ 8 := by norm_num
    have h3 := natToHex_length_le 8 _ h2
    unfold padStart
    simp only [List.length_append, List.length_replicate]
    omega
  · intro c hc
    unfold padStart at hc
    rcases List.mem_append.mp hc with h | h
    · rw [List.eq_of_mem_replicate h]
      decide
    · exact natToHex_isHex _ c h

/-- C3 witness: the theorem instantiated at the concrete content
`"hello"`. -/
theorem generateCID_deterministic_and_format_witness :
    generateCID "hello" = generateCID "hello" ∧
    ∃ rest : List Char, generateCID "hello" = String.mk ('Q' :: 'm' :: rest) ∧
      rest.length = 44 ∧ ∀ c ∈ rest, isHexChar c = true :=
  generateCID_deterministic_and_format "hello" "hello" rfl

/-! ## Lemmas about the content store -/

theorem find?_map_upsert_self (s : List IPFSContent) (r : IPFSContent)
    (hany : s.any (fun x => x.cid = r.cid) = true) :
    (s.map (fun x => if x.cid = r.cid then r else x)).find? (fun x => x.cid = r.cid) =
      some r := by
  induction s with
  | nil => simp at hany
  | cons x s ih =>
      by_cases hx : x.cid = r.cid
      · rw [List.map_cons, if_pos hx]
        exact List.find?_cons_of_pos _ (by simp)
      · rw [List.map_cons, if_neg hx, List.find?_cons_of_neg _ (by simp [hx])]
        refine ih ?_
        simpa [hx] using hany

theorem find?_map_upsert_ne (s : List IPFSContent) (r : IPFSContent) (cid : String)
    (h : cid ≠ r.cid) :
    (s.map (fun x => if x.cid = r.cid then r else x)).find? (fun x => x.cid = cid) =
      s.find? (fun x => x.cid = cid) := by
  induction s with
  | nil => rfl
  | cons x s ih =>
      by_cases hx : x.cid = r.cid
      · rw [List.map_cons, if_pos hx,
          List.find?_cons_of_neg _ (by simp only [decide_eq_true_eq]; exact fun hh => h hh.symm),
          List.find?_cons_of_neg _ (by
            simp only [decide_eq_true_eq]
            intro hh
            rw [hx] at hh
            exact h hh.symm)]
        exact ih
      · rw [List.map_cons, if_neg hx]
        by_cases hxc : x.cid = cid
        · rw [List.find?_cons_of_pos _ (by simp [hxc]), List.find?_cons_of_pos _ (by simp [hxc])]
        · rw [List.find?_cons_of_neg _ (by simp [hxc]), List.find?_cons_of_neg _ (by simp [hxc])]
          exact ih

theorem findContent_upsert_self (s : List IPFSContent) (r : IPFSContent) :
    findContent (upsertContent s r) r.cid = some r := by
  unfold upsertContent findContent
  split
  · exact find?_map_upsert_self s r (by assumption)
  · rename_i hany
    rw [List.find?_append]
    have hnone : s.find? (fun x => x.cid = r.cid) = none := by
      rw [List.find?_eq_none]
      intro x hx
      simp only [decide_eq_true_eq]
      intro hc
      exact hany (List.any_eq_true.mpr ⟨x, hx, by simp [hc]⟩)
    rw [hnone]
    simp

theorem findContent_upsert_ne (s : List IPFSContent) (r : IPFSContent) (cid : String)
    (h : cid ≠ r.cid) :
    findContent (upsertContent s r) cid = findContent s cid := by
  unfold upsertContent findContent
  split
  · exact find?_map_upsert_ne s r cid h
  · rw [List.find?_append]
    have hr : [r].find? (fun x => x.cid = cid) = none := by
      simp only [List.find?]
      rw [decide_eq_false (fun hh => h hh.symm)]
    rw [hr]
    simp

theorem findContent_applyAdds_ne (ops : List (String × Option Metadata × Nat)) :
    ∀ (s : List IPFSContent) (cid : String),
      (∀ op ∈ ops, generateCID op.1 ≠ cid) →
      findContent (applyAdds s ops) cid = findContent s cid := by
  induction ops with
  | nil => intro s cid _; rfl
  | cons op ops ih =>
      intro s cid hops
      have hstep : findContent (addToIPFS s op.1 op.2.1 op.2.2).2 cid = findContent s cid := by
        refine findContent_upsert_ne _ _ _ ?_
        exact fun hh => hops op (by simp) (hh ▸ rfl)
      calc findContent (applyAdds s (op :: ops)) cid
          = findContent (applyAdds (addToIPFS s op.1 op.2.1 op.2.2).2 ops) cid := rfl
        _ = findContent (addToIPFS s op.1 op.2.1 op.2.2).2 cid :=
            ih _ _ (fun o ho => hops o (by simp [ho]))
        _ = findContent s cid := hstep

theorem find?_filter_eq {α : Type} (l : List α) (pred P : α → Bool)
    (h : ∀ x ∈ l, pred x = true → P x = true) :
    (l.filter P).find? pred = l.find? pred := by
  induction l with
  | nil => rfl
  | cons x l ih =>
      by_cases hp : pred x = true
      · rw [List.filter_cons_of_pos (h x (by simp) hp), List.find?_cons_of_pos _ hp,
          List.find?_cons_of_pos _ hp]
      · by_cases hPx : P x = true
        · rw [List.filter_cons_of_pos hPx, List.find?_cons_of_neg _ hp,
            List.find?_cons_of_neg _ hp]
          exact ih fun y hy => h y (by simp [hy])
        · rw [List.filter_cons_of_neg (by simpa using hPx), List.find?_cons_of_neg _ hp]
          exact ih fun y hy => h y (by simp [hy])

theorem metaLookup_mergeMeta (old patch : Metadata) (k : String) :
    metaLookup (mergeMeta old patch) k =
      if patch.any (fun q => q.1 = k) = true then metaLookup patch k
      else metaLookup old k := by
  unfold metaLookup mergeMeta
  rw [List.find?_append]
  by_cases hk : patch.any (fun q => decide (q.1 = k)) = true
  · rw [if_pos hk]
    have hnone :
        (old.filter fun p => !(patch.any fun q => q.1 = p.1)).find? (fun p => p.1 = k) =
          none := by
      rw [List.find?_eq_none]
      intro x hx
      simp only [decide_eq_true_eq]
      intro hxk
      have hfil := (List.mem_filter.mp hx).2
      rw [hxk] at hfil
      simp only [Bool.not_eq_true'] at hfil
      rw [hfil] at hk
      exact Bool.false_ne_true hk
    rw [hnone]
    rfl
  · rw [if_neg hk]
    have h2 : patch.find? (fun p => p.1 = k) = none := by
      rw [List.find?_eq_none]
      intro q hq
      simp only [decide_eq_true_eq]
      intro hqk
      exact hk (List.any_eq_true.mpr ⟨q, hq, by simp [hqk]⟩)
    rw [find?_filter_eq old _ _ ?_, h2]
    · cases old.find? fun p => decide (p.1 = k) <;> rfl
    · intro x hx hpred
      simp only [decide_eq_true_eq] at hpred
      rw [hpred]
      simp only [Bool.not_eq_true']
      exact Bool.not_eq_true _ ▸ (Bool.eq_false_iff.mpr fun hab => hk hab)

/-- C4: round-trip law of the content store — after `addToIPFS(c)` returns
an id, and any sequence of further `addToIPFS` calls none of which derives
the same id, `getFromIPFS(id)` returns exactly `c`. -/
theorem addToIPFS_getFromIPFS_roundtrip (s : List IPFSContent) (c : String)
    (meta : Option Metadata) (now : Nat) (ops : List (String × Option Metadata × Nat))
    (hops : ∀ op ∈ ops, generateCID op.1 ≠ generateCID c) :
    getFromIPFS (applyAdds (addToIPFS s c meta now).2 ops) (addToIPFS s c meta now).1 =
      .ok c := by
  have h1 : findContent (applyAdds (addToIPFS s c meta now).2 ops) (generateCID c) =
      findContent (addToIPFS s c meta now).2 (generateCID c) :=
    findContent_applyAdds_ne ops _ _ hops
  have h2 : findContent (addToIPFS s c meta now).2 (generateCID c) =
      some { cid := generateCID c, content := c, timestamp := now,
             size := c.utf8ByteSize, type := "string", metadata := meta } :=
    findContent_upsert_self s _
  show getFromIPFS (applyAdds (addToIPFS s c meta now).2 ops) (generateCID c) = .ok c
  unfold getFromIPFS
  rw [h1, h2]

/-- C4 witness: store `"hello"`, then store `"world"` (a different derived
id), and read the first id back. -/
theorem addToIPFS_getFromIPFS_roundtrip_witness :
    getFromIPFS
      (applyAdds (addToIPFS [] "hello" none 1).2 [("world", none, 2)])
      (addToIPFS [] "hello" none 1).1 = .ok "hello" :=
  addToIPFS_getFromIPFS_roundtrip [] "hello" none 1 [("world", none, 2)]
    (by
      intro op hop
      simp only [List.mem_singleton] at hop
      subst hop
      decide)

/-- C6: `updateContentMetadata(id, patch)` shallow-merges `patch` into the
stored record's metadata with patch keys overriding existing keys —
in particular updating with `{a:1}` and then `{a:2,b:3}` on a fresh record
leaves metadata `{a:2,b:3}` — and returns `false` without modifying any
state when no record with that id exists. -/
theorem updateContentMetadata_spec (s : List IPFSContent) (cid : String) (patch : Metadata) :
    (∀ r, findContent s cid = some r →
       (updateContentMetadata s cid patch).1 = true ∧
       findContent (updateContentMetadata s cid patch).2 cid =
         some { r with metadata := some (mergeMeta (r.metadata.getD []) patch) } ∧
       ∀ k, metaLookup (mergeMeta (r.metadata.getD []) patch) k =
         if patch.any (fun q => q.1 = k) = true then metaLookup patch k
         else metaLookup (r.metadata.getD []) k) ∧
    (findContent s cid = none → updateContentMetadata s cid patch = (false, s)) ∧
    ((findContent
        (updateContentMetadata
          (updateContentMetadata
            [{ cid := "id0", content := "x", timestamp := 0, size := 1,
               type := "string", metadata := none }]
            "id0" [("a", .num 1)]).2
          "id0" [("a", .num 2), ("b", .num 3)]).2
        "id0").map (·.metadata) = some (some [("a", .num 2), ("b", .num 3)])) := by
  refine ⟨?_, ?_, ?_⟩
  · intro r hr
    have hcid : r.cid = cid := by
      have := List.find?_some hr
      simpa using this
    refine ⟨by simp only [updateContentMetadata, hr], ?_, fun k => metaLookup_mergeMeta _ _ _⟩
    simp only [updateContentMetadata, hr]
    have hself := findContent_upsert_self s
      { r with metadata := some (mergeMeta (r.metadata.getD []) patch) }
    simpa [hcid] using hself
  · intro hnone
    simp only [updateContentMetadata, hnone]
  · decide

/-- C6 witness: on a store holding one record with id `id0` and no
metadata, the update reports success and stores the patched record. -/
theorem updateContentMetadata_spec_witness :
    (updateContentMetadata
      [{ cid := "id0", content := "x", timestamp := 0, size := 1,
         type := "string", metadata := none }] "id0" [("a", .num 1)]).1 = true ∧
    findContent (updateContentMetadata
      [{ cid := "id0", content := "x", timestamp := 0, size := 1,
         type := "string", metadata := none }] "id0" [("a", .num 1)]).2 "id0" =
      some { cid := "id0", content := "x", timestamp := 0, size := 1,
             type := "string", metadata := some [("a", .num 1)] } := by
  have h := (updateContentMetadata_spec
    [{ cid := "id0", content := "x", timestamp := 0, size := 1,
       type := "string", metadata := none }] "id0" [("a", .num 1)]).1
    { cid := "id0", content := "x", timestamp := 0, size := 1,
      type := "string", metadata := none } rfl
  exact ⟨h.1, h.2.1⟩

/-! ## `getAllFromStore` failure behaviour -/

/-- C5: `getAllFromStore` returns `[]` when opening the database fails
(the `catch` path) and returns all records on success — but a failure of
the read transaction itself is NOT converted to `[]`: the read promise is
returned from inside the `try` without being awaited, so its rejection
bypasses the `catch` and propagates to the caller.  The third conjunct
evaluates the embedding at exactly that input. -/
theorem getAllFromStore_failure_behavior :
    getAllFromStore (α := Nat) (.error "open failed") (.error "read failed") = .ok [] ∧
    getAllFromStore (α := Nat) (.ok ()) (.ok [1, 2]) = .ok [1, 2] ∧
    getAllFromStore (α := Nat) (.ok ()) (.error "read failed") = .error "read failed" :=
  ⟨rfl, rfl, rfl⟩

/-! ## Subscription registry -/

/-- C9: subscribing a fresh listener makes the send fan-out invoke it
exactly once per created message, and the returned unsubscribe function
removes exactly that listener — it is gone afterwards, and every other
listener's registry membership (indeed its multiplicity) is unchanged,
whatever the registry holds when the closure runs. -/
theorem subscribeToMessages_spec (L : Type) [DecidableEq L] (reg : List L) (l : L)
    (msg : NetworkMessage) :
    (l ∉ reg →
      (notifyListeners (subscribeToMessages reg l) msg).filter (fun p => p.1 = l) =
        [(l, msg)]) ∧
    (∀ current : List L,
       l ∉ unsubscribeListener current l ∧
       ∀ x, x ≠ l →
         ((x ∈ unsubscribeListener current l ↔ x ∈ current) ∧
          (unsubscribeListener current l).count x = current.count x)) := by
  constructor
  · intro hl
    unfold notifyListeners subscribeToMessages
    rw [List.filter_map]
    have hfil :
        (reg ++ [l]).filter ((fun p : L × NetworkMessage => decide (p.1 = l)) ∘
          (fun x : L => (x, msg))) = [l] := by
      rw [List.filter_append]
      have h1 : reg.filter ((fun p : L × NetworkMessage => decide (p.1 = l)) ∘
          (fun x : L => (x, msg))) = [] := by
        rw [List.filter_eq_nil_iff]
        intro a ha
        simp only [Function.comp_apply, decide_eq_true_eq]
        exact fun hal => hl (hal ▸ ha)
      rw [h1]
      simp [Function.comp]
    rw [hfil]
    rfl
  · intro current
    constructor
    · unfold unsubscribeListener
      intro hmem
      have := (List.mem_filter.mp hmem).2
      simp at this
    · intro x hx
      unfold unsubscribeListener
      constructor
      · constructor
        · exact fun hmem => (List.mem_filter.mp hmem).1
        · intro hmem
          exact List.mem_filter.mpr ⟨hmem, by simp [hx]⟩
      · exact List.count_filter (by simp [hx])

/-- C9 witness: a fresh listener token `1` over registry `[0]`, plus the
unsubscribe closure run on registry `[0, 1, 2]`. -/
theorem subscribeToMessages_spec_witness :
    (notifyListeners (subscribeToMessages [0] 1)
      { id := "m", fromNodeId := "a", toNodeId := "b", type := .query,
        content := "c", timestamp := 0, delivered := false }).filter
      (fun p => p.1 = 1) =
      [(1, { id := "m", fromNodeId := "a", toNodeId := "b", type := .query,
             content := "c", timestamp := 0, delivered := false })] ∧
    (1 : Nat) ∉ unsubscribeListener [0, 1, 2] 1 ∧
    ((2 : Nat) ∈ unsubscribeListener [0, 1, 2] 1 ↔ (2 : Nat) ∈ [0, 1, 2]) :=
  ⟨(subscribeToMessages_spec Nat [0] 1
      { id := "m", fromNodeId := "a", toNodeId := "b", type := .query,
        content := "c", timestamp := 0, delivered := false }).1 (by decide),
   ((subscribeToMessages_spec Nat [0] 1
      { id := "m", fromNodeId := "a", toNodeId := "b", type := .query,
        content := "c", timestamp := 0, delivered := false }).2 [0, 1, 2]).1,
   (((subscribeToMessages_spec Nat [0] 1
      { id := "m", fromNodeId := "a", toNodeId := "b", type := .query,
        content := "c", timestamp := 0, delivered := false }).2 [0, 1, 2]).2 2
      (by decide)).1⟩

/-! ## The message bus -/

theorem canReach_iff (nodes : List NetworkNode) (fromNode : NetworkNode) (toId : String) :
    canReach nodes fromNode toId = true ↔ ReachableOneHop nodes fromNode toId := by
  unfold canReach ReachableOneHop
  rw [Bool.or_eq_true, List.any_eq_true]
  constructor
  · rintro (h | ⟨iid, hiid, hmatch⟩)
    · left
      simpa using h
    · right
      refine ⟨iid, hiid, ?_⟩
      cases hf : nodes.find? (fun n => n.id = iid) with
      | none => rw [hf] at hmatch; cases hmatch
      | some inter =>
          rw [hf] at hmatch
          simp only [Bool.and_eq_true] at hmatch
          exact ⟨inter, rfl, hmatch.1, by simpa using hmatch.2⟩
  · rintro (h | ⟨iid, hiid, inter, hfind, hact, hmem⟩)
    · left
      simpa using h
    · right
      refine ⟨iid, hiid, ?_⟩
      rw [hfind]
      simp [hact, hmem]

/-- C1: the four-way outcome of `sendNetworkMessage` — a missing endpoint
rejects with the node-not-found reason; two existing endpoints with either
inactive reject with the distinct node-inactive reason; two existing
active endpoints with no direct or one-hop path reject with the distinct
no-path reason; and two existing active endpoints with such a path resolve
with the created message's id. -/
theorem sendNetworkMessage_outcomes (L : Type) (st : NetState L) (fromId toId : String)
    (ty : MsgType) (content : String) (now : Nat) (randSuffix : String) :
    ((¬ (∃ n ∈ st.nodes, n.id = fromId)) ∨ (¬ (∃ n ∈ st.nodes, n.id = toId)) →
       (sendNetworkMessage st fromId toId ty content now randSuffix).1 =
         .error .nodeNotFound) ∧
    (∀ fromNode toNode,
       st.nodes.find? (fun n => n.id = fromId) = some fromNode →
       st.nodes.find? (fun n => n.id = toId) = some toNode →
       ((fromNode.isActive = false ∨ toNode.isActive = false →
           (sendNetworkMessage st fromId toId ty content now randSuffix).1 =
             .error .nodeInactive) ∧
        (fromNode.isActive = true → toNode.isActive = true →
           ¬ ReachableOneHop st.nodes fromNode toId →
           (sendNetworkMessage st fromId toId ty content now randSuffix).1 =
             .error .noPath) ∧
        (fromNode.isActive = true → toNode.isActive = true →
           ReachableOneHop st.nodes fromNode toId →
           (sendNetworkMessage st fromId toId ty content now randSuffix).1 =
             .ok ("msg-" ++ toString now ++ "-" ++ randSuffix)))) := by
  constructor
  · intro hmiss
    unfold sendNetworkMessage
    rcases hmiss with hmiss | hmiss
    · have hnone : st.nodes.find? (fun n => n.id = fromId) = none := by
        rw [List.find?_eq_none]
        intro x hx
        simp only [decide_eq_true_eq]
        exact fun hid => hmiss ⟨x, hx, hid⟩
      rw [hnone]
    · have hnone : st.nodes.find? (fun n => n.id = toId) = none := by
        rw [List.find?_eq_none]
        intro x hx
        simp only [decide_eq_true_eq]
        exact fun hid => hmiss ⟨x, hx, hid⟩
      rw [hnone]
      cases st.nodes.find? (fun n => n.id = fromId) <;> rfl
  · intro fromNode toNode hfrom hto
    refine ⟨?_, ?_, ?_⟩
    · intro hinact
      unfold sendNetworkMessage
      rw [hfrom, hto]
      dsimp only
      have hcond : ¬ fromNode.isActive = true ∨ ¬ toNode.isActive = true := by
        rcases hinact with h | h
        · exact Or.inl (by simp [h])
        · exact Or.inr (by simp [h])
      rw [if_pos hcond]
    · intro hfa hta hnr
      unfold sendNetworkMessage
      rw [hfrom, hto]
      dsimp only
      rw [if_neg (by simp [hfa, hta])]
      rw [if_pos (by
        intro hcr
        exact hnr ((canReach_iff st.nodes fromNode toId).mp hcr))]
    · intro hfa hta hr
      unfold sendNetworkMessage
      rw [hfrom, hto]
      dsimp only
      rw [if_neg (by simp [hfa, hta])]
      rw [if_neg (by
        intro hncr
        exact hncr ((canReach_iff st.nodes fromNode toId).mpr hr))]

/-- C1 witness: a two-node network with a direct connection — the send
resolves with the message id built from the timestamp and random
suffix. -/
theorem sendNetworkMessage_outcomes_witness :
    (sendNetworkMessage (L := Unit)
      { nodes := [{ id := "a", type := .standard, isActive := true,
                    connectedNodes := ["b"], createdAt := 0, lastSeen := 0 },
                  { id := "b", type := .standard, isActive := true,
                    connectedNodes := [], createdAt := 0, lastSeen := 0 }],
        messages := [], listeners := [] }
      "a" "b" .query "hi" 7 "r1").1 = .ok ("msg-" ++ toString 7 ++ "-" ++ "r1") :=
  (((sendNetworkMessage_outcomes Unit
      { nodes := [{ id := "a", type := .standard, isActive := true,
                    connectedNodes := ["b"], createdAt := 0, lastSeen := 0 },
                  { id := "b", type := .standard, isActive := true,
                    connectedNodes := [], createdAt := 0, lastSeen := 0 }],
        messages := [], listeners := [] }
      "a" "b" .query "hi" 7 "r1").2
    { id := "a", type := .standard, isActive := true,
      connectedNodes := ["b"], createdAt := 0, lastSeen := 0 }
    { id := "b", type := .standard, isActive := true,
      connectedNodes := [], createdAt := 0, lastSeen := 0 }
    rfl rfl).2.2) rfl rfl (Or.inl (by decide))

/-- C10: `sendNetworkMessage` is atomic on error — whenever it rejects,
the node list (including both endpoints' `lastSeen`), the message log and
the listener registry are unchanged, and no listener is invoked. -/
theorem sendNetworkMessage_error_atomic (L : Type) (st : NetState L) (fromId toId : String)
    (ty : MsgType) (content : String) (now : Nat) (randSuffix : String) (e : SendError)
    (h : (sendNetworkMessage st fromId toId ty content now randSuffix).1 = .error e) :
    (sendNetworkMessage st fromId toId ty content now randSuffix).2.1 = st ∧
    (sendNetworkMessage st fromId toId ty content now randSuffix).2.2 = [] := by
  unfold sendNetworkMessage at h ⊢
  cases hf : st.nodes.find? (fun n => n.id = fromId) with
  | none => exact ⟨rfl, rfl⟩
  | some fromNode =>
      cases ht : st.nodes.find? (fun n => n.id = toId) with
      | none => exact ⟨rfl, rfl⟩
      | some toNode =>
          rw [hf, ht] at h
          dsimp only at h ⊢
          by_cases hact : ¬ fromNode.isActive = true ∨ ¬ toNode.isActive = true
          · rw [if_pos hact]
            exact ⟨rfl, rfl⟩
          · rw [if_neg hact] at h ⊢
            by_cases hcr : ¬ canReach st.nodes fromNode toId = true
            · rw [if_pos hcr]
              exact ⟨rfl, rfl⟩
            · rw [if_neg hcr] at h
              cases h

/-- C10 witness: a send whose sender id is absent rejects and leaves the
state untouched with no listener invocation. -/
theorem sendNetworkMessage_error_atomic_witness :
    (sendNetworkMessage (L := Unit)
      { nodes := [], messages := [], listeners := [] }
      "a" "b" .query "hi" 7 "r1").2.1 =
      { nodes := [], messages := [], listeners := [] } ∧
    (sendNetworkMessage (L := Unit)
      { nodes := [], messages := [], listeners := [] }
      "a" "b" .query "hi" 7 "r1").2.2 = [] :=
  sendNetworkMessage_error_atomic Unit
    { nodes := [], messages := [], listeners := [] }
    "a" "b" .query "hi" 7 "r1" .nodeNotFound rfl

/-! ## The query orchestrator's processing path -/

/-- C8: whenever `processQuery` resolves successfully, the returned
`processingPath` starts and ends with the synthetic client identifier and
has length at least 4. -/
theorem processQuery_path (L : Type) (st : NetState L) (cs : List IPFSContent)
    (query : String) (stdIdx : Fin 15) (ipfsIdx : Fin 5) (respIdx : Fin 5) (now : Nat)
    (rand : Nat → String) (r : QueryResult) (st' : NetState L) (cs' : List IPFSContent)
    (h : processQuery st cs query stdIdx ipfsIdx respIdx now rand = .ok (r, st', cs')) :
    r.processingPath.head? = some "client" ∧
    r.processingPath.getLast? = some "client" ∧
    4 ≤ r.processingPath.length := by
  unfold processQuery at h
  dsimp only at h
  split at h
  · cases h
  · split at h
    · cases h
    · split at h
      · cases h
      · split at h
        · cases h
        · split at h
          · cases h
          · simp only [Except.ok.injEq, Prod.mk.injEq] at h
            obtain ⟨hr, -, -⟩ := h
            subst hr
            exact ⟨rfl, rfl, (by norm_num : (4 : Nat) ≤ 6)⟩

/-- C8 witness: a concrete network where every orchestrated hop succeeds;
the path starts and ends at the client and has six hops. -/
theorem processQuery_path_witness :
    ∃ (r : QueryResult) (st' : NetState Unit) (cs' : List IPFSContent),
      processQuery
        { nodes := [{ id := "client", type := .standard, isActive := true,
                      connectedNodes := ["node-0"], createdAt := 0, lastSeen := 0 },
                    { id := "node-0", type := .standard, isActive := true,
                      connectedNodes := ["llm-main", "client"], createdAt := 0, lastSeen := 0 },
                    { id := "llm-main", type := .llm, isActive := true,
                      connectedNodes := ["ipfs-0"], createdAt := 0, lastSeen := 0 },
                    { id := "ipfs-0", type := .ipfs, isActive := true,
                      connectedNodes := ["node-0"], createdAt := 0, lastSeen := 0 }],
          messages := [], listeners := [] }
        [] "test query" ⟨0, by decide⟩ ⟨0, by decide⟩ ⟨0, by decide⟩ 1 (fun _ => "r") =
        .ok (r, st', cs') ∧
      r.processingPath.head? = some "client" ∧
      r.processingPath.getLast? = some "client" ∧
      4 ≤ r.processingPath.length := by
  cases hpq : processQuery (L := Unit)
      { nodes := [{ id := "client", type := .standard, isActive := true,
                    connectedNodes := ["node-0"], createdAt := 0, lastSeen := 0 },
                  { id := "node-0", type := .standard, isActive := true,
                    connectedNodes := ["llm-main", "client"], createdAt := 0, lastSeen := 0 },
                  { id := "llm-main", type := .llm, isActive := true,
                    connectedNodes := ["ipfs-0"], createdAt := 0, lastSeen := 0 },
                  { id := "ipfs-0", type := .ipfs, isActive := true,
                    connectedNodes := ["node-0"], createdAt := 0, lastSeen := 0 }],
        messages := [], listeners := [] }
      [] "test query" ⟨0, by decide⟩ ⟨0, by decide⟩ ⟨0, by decide⟩ 1 (fun _ => "r") with
  | error e =>
      have hok : (processQuery (L := Unit)
        { nodes := [{ id := "client", type := .standard, isActive := true,
                      connectedNodes := ["node-0"], createdAt := 0, lastSeen := 0 },
                    { id := "node-0", type := .standard, isActive := true,
                      connectedNodes := ["llm-main", "client"], createdAt := 0, lastSeen := 0 },
                    { id := "llm-main", type := .llm, isActive := true,
                      connectedNodes := ["ipfs-0"], createdAt := 0, lastSeen := 0 },
                    { id := "ipfs-0", type := .ipfs, isActive := true,
                      connectedNodes := ["node-0"], createdAt := 0, lastSeen := 0 }],
          messages := [], listeners := [] }
        [] "test query" ⟨0, by decide⟩ ⟨0, by decide⟩ ⟨0, by decide⟩ 1
        (fun _ => "r")).isOk = true := by decide
      rw [hpq] at hok
      cases hok
  | ok t =>
      obtain ⟨r, st', cs'⟩ := t
      exact ⟨r, st', cs', rfl, processQuery_path Unit _ _ _ _ _ _ _ _ _ _ _ hpq⟩

/-! ## Random wiring of `initializeNetwork` -/

theorem wireNode_succ (conn others : List String) (k : Nat) (draw : Nat → Nat) :
    wireNode conn others (k + 1) draw =
      (if others.getD (draw k % others.length) "" ∈ wireNode conn others k draw then
         wireNode conn others k draw
       else wireNode conn others k draw ++ [others.getD (draw k % others.length) ""]) := by
  unfold wireNode
  rw [List.range_succ, List.foldl_append]
  rfl

theorem wireNode_props (conn others : List String) (draw : Nat → Nat) (k : Nat)
    (hothers : others ≠ []) :
    (∀ x ∈ wireNode conn others k draw, x ∈ conn ∨ x ∈ others) ∧
    (conn.Nodup → (wireNode conn others k draw).Nodup) ∧
    (wireNode conn others k draw).length ≤ conn.length + k := by
  induction k with
  | zero => exact ⟨fun x hx => Or.inl hx, fun h => h, Nat.le_of_eq (by simp [wireNode])⟩
  | succ k ih =>
      rw [wireNode_succ]
      have hcand : others.getD (draw k % others.length) "" ∈ others := by
        have hlen : 0 < others.length := List.length_pos.mpr hothers
        have hlt : draw k % others.length < others.length := Nat.mod_lt _ hlen
        rw [List.getD_eq_getElem?_getD, List.getElem?_eq_getElem hlt]
        exact List.getElem_mem _
      by_cases hmem : others.getD (draw k % others.length) "" ∈ wireNode conn others k draw
      · rw [if_pos hmem]
        exact ⟨ih.1, ih.2.1, le_trans ih.2.2 (by omega)⟩
      · rw [if_neg hmem]
        refine ⟨?_, ?_, ?_⟩
        · intro x hx
          rcases List.mem_append.mp hx with h | h
          · exact ih.1 x h
          · simp only [List.mem_singleton] at h
            subst h
            exact Or.inr hcand
        · intro hnd
          have hacc := ih.2.1 hnd
          rw [List.nodup_append]
          refine ⟨hacc, List.nodup_singleton _, ?_⟩
          intro x hx hx1
          simp only [List.mem_singleton] at hx1
          subst hx1
          exact hmem hx
        · simp only [List.length_append, List.length_singleton]
          have := ih.2.2
          omega

theorem connectionCount_bounds (q : ℚ) (h0 : 0 ≤ q) (h1 : q < 1) :
    2 ≤ connectionCount q ∧ connectionCount q ≤ 4 := by
  unfold connectionCount
  have hfl : (2 : Int) ≤ ⌊(2 : ℚ) + q * 3⌋ := by
    apply Int.le_floor.mpr
    push_cast
    nlinarith
  have hfu : ⌊(2 : ℚ) + q * 3⌋ < 5 := by
    apply Int.floor_lt.mpr
    push_cast
    nlinarith
  omega

/-- C7: for each node the wiring draws a connection count `k ∈ [2, 4]` and
attaches up to `k` neighbors, drawn only from the other nodes (the node's
own id is never added), with no duplicate entries, and fewer than `k` new
neighbors can result because a duplicate draw is skipped rather than
redrawn. -/
theorem initializeNetwork_wiring_spec (q : ℚ) (h0 : 0 ≤ q) (h1 : q < 1)
    (node : NetworkNode) (others : List String) (draw : Nat → Nat)
    (hothers : others ≠ []) (hself : node.id ∉ others)
    (hconn : node.id ∉ node.connectedNodes) (hnd : node.connectedNodes.Nodup) :
    (2 ≤ connectionCount q ∧ connectionCount q ≤ 4) ∧
    node.id ∉ wireNode node.connectedNodes others (connectionCount q) draw ∧
    (wireNode node.connectedNodes others (connectionCount q) draw).Nodup ∧
    (∀ x ∈ wireNode node.connectedNodes others (connectionCount q) draw,
       x ∈ node.connectedNodes ∨ x ∈ others) ∧
    (wireNode node.connectedNodes others (connectionCount q) draw).length ≤
      node.connectedNodes.length + connectionCount q ∧
    (∃ (conn' others' : List String) (k' : Nat) (draw' : Nat → Nat),
       2 ≤ k' ∧ (wireNode conn' others' k' draw').length < conn'.length + k') := by
  have hp := wireNode_props node.connectedNodes others draw (connectionCount q) hothers
  refine ⟨connectionCount_bounds q h0 h1, ?_, hp.2.1 hnd, hp.1, hp.2.2, ?_⟩
  · intro hmem
    rcases hp.1 node.id hmem with h | h
    · exact hconn h
    · exact hself h
  · exact ⟨[], ["x"], 2, fun _ => 0, by decide, by decide⟩

/-- C7 witness: the wiring properties at the concrete draw `q = 1/2` for a
node `a` with one other node `b`. -/
theorem initializeNetwork_wiring_spec_witness :
    (2 ≤ connectionCount (1 / 2) ∧ connectionCount (1 / 2) ≤ 4) ∧
    "a" ∉ wireNode [] ["b"] (connectionCount (1 / 2)) (fun _ => 0) ∧
    (wireNode [] ["b"] (connectionCount (1 / 2)) (fun _ => 0)).Nodup ∧
    (∀ x ∈ wireNode [] ["b"] (connectionCount (1 / 2)) (fun _ => 0),
       x ∈ ([] : List String) ∨ x ∈ ["b"]) ∧
    (wireNode [] ["b"] (connectionCount (1 / 2)) (fun _ => 0)).length ≤
      ([] : List String).length + connectionCount (1 / 2) ∧
    (∃ (conn' others' : List String) (k' : Nat) (draw' : Nat → Nat),
       2 ≤ k' ∧ (wireNode conn' others' k' draw').length < conn'.length + k') :=
  initializeNetwork_wiring_spec (1 / 2) (by norm_num) (by norm_num)
    { id := "a", type := .standard, isActive := true, connectedNodes := [],
      createdAt := 0, lastSeen := 0 }
    ["b"] (fun _ => 0) (by decide) (by decide) (by decide) (by decide)

/-! ## The llm/ipfs connectivity guarantee of `initializeNetwork` -/

theorem length_modifyAt (l : List α) (p : Nat) (f : α → α) :
    (modifyAt l p f).length = l.length := by
  unfold modifyAt
  split
  · exact List.length_set ..
  · rfl

theorem getElem?_modifyAt (l : List α) (p q : Nat) (f : α → α) :
    (modifyAt l p f)[q]? = if p = q then l[q]?.map f else l[q]? := by
  unfold modifyAt
  cases hp : l[p]? with
  | none =>
      dsimp only
      split
      · rename_i hpq
        subst hpq
        rw [hp]
        rfl
      · rfl
  | some x =>
      dsimp only
      rw [List.getElem?_set]
      split
      · rename_i hpq
        subst hpq
        have hlt : p < l.length := by
          by_contra hge
          rw [List.getElem?_eq_none (by omega)] at hp
          cases hp
        rw [if_pos hlt, hp]
        rfl
      · rfl

theorem pushConn_fields (n : NetworkNode) (cid : String) :
    (pushConn n cid).id = n.id ∧ (pushConn n cid).type = n.type ∧
    (pushConn n cid).isActive = n.isActive ∧
    (∀ x ∈ n.connectedNodes, x ∈ (pushConn n cid).connectedNodes) ∧
    cid ∈ (pushConn n cid).connectedNodes := by
  unfold pushConn
  split
  · exact ⟨rfl, rfl, rfl, fun x hx => hx, by assumption⟩
  · exact ⟨rfl, rfl, rfl, fun x hx => List.mem_append_left _ hx,
      List.mem_append_right _ (List.mem_singleton_self _)⟩

theorem connGrows_refl (st : List NetworkNode) : ConnGrows st st :=
  ⟨rfl, fun _ n hn => ⟨n, hn, rfl, rfl, rfl, fun _ hx => hx⟩⟩

theorem connGrows_trans {st1 st2 st3 : List NetworkNode}
    (h12 : ConnGrows st1 st2) (h23 : ConnGrows st2 st3) : ConnGrows st1 st3 := by
  refine ⟨h23.1.trans h12.1, ?_⟩
  intro p n hn
  obtain ⟨n2, hn2, hid2, hty2, hact2, hsub2⟩ := h12.2 p n hn
  obtain ⟨n3, hn3, hid3, hty3, hact3, hsub3⟩ := h23.2 p n2 hn2
  exact ⟨n3, hn3, hid3.trans hid2, hty3.trans hty2, hact3.trans hact2,
    fun x hx => hsub3 x (hsub2 x hx)⟩

theorem connGrows_modifyAt_pushConn (st : List NetworkNode) (p : Nat) (cid : String) :
    ConnGrows st (modifyAt st p (fun n => pushConn n cid)) := by
  refine ⟨length_modifyAt .., ?_⟩
  intro q n hq
  rw [getElem?_modifyAt]
  by_cases hpq : p = q
  · rw [if_pos hpq, hq]
    have hf := pushConn_fields n cid
    exact ⟨pushConn n cid, rfl, hf.1, hf.2.1, hf.2.2.1, hf.2.2.2.1⟩
  · rw [if_neg hpq]
    exact ⟨n, hq, rfl, rfl, rfl, fun _ hx => hx⟩

theorem connGrows_ensureStep (i : Nat) (st : List NetworkNode) (j : Nat) :
    ConnGrows st (ensureStep i st j) := by
  unfold ensureStep
  split
  · exact connGrows_trans (connGrows_modifyAt_pushConn ..) (connGrows_modifyAt_pushConn ..)
  · exact connGrows_refl st

theorem connGrows_foldl {step : List NetworkNode → Nat → List NetworkNode}
    (hstep : ∀ st j, ConnGrows st (step st j)) :
    ∀ (l : List Nat) (st : List NetworkNode), ConnGrows st (l.foldl step st) := by
  intro l
  induction l with
  | nil => exact fun st => connGrows_refl st
  | cons j l ih => exact fun st => connGrows_trans (hstep st j) (ih (step st j))

theorem wireNode_mem_mono (conn others : List String) (draw : Nat → Nat) (k : Nat) :
    ∀ x ∈ conn, x ∈ wireNode conn others k draw := by
  induction k with
  | zero => exact fun x hx => hx
  | succ k ih =>
      rw [wireNode_succ]
      split
      · exact ih
      · exact fun x hx => List.mem_append_left _ (ih x hx)

theorem ensureStep_establishes (i j : Nat) (st : List NetworkNode) (ni nj : NetworkNode)
    (hi : st[i]? = some ni) (hj : st[j]? = some nj) (hij : j ≠ i) :
    (ensureStep i st j)[i]? = some (pushConn ni nj.id) ∧
    (ensureStep i st j)[j]? = some (pushConn nj ni.id) := by
  unfold ensureStep
  rw [hi, hj]
  dsimp only
  constructor
  · rw [getElem?_modifyAt, if_neg hij, getElem?_modifyAt, if_pos rfl, hi]
    rfl
  · rw [getElem?_modifyAt, if_pos rfl, getElem?_modifyAt,
      if_neg (fun h => hij h.symm), hj]
    rfl

theorem ensure_fold_establishes (i : Nat) :
    ∀ (l : List Nat) (st : List NetworkNode) (ni : NetworkNode),
      st[i]? = some ni → (∀ j ∈ l, j ≠ i) → (∀ j ∈ l, j < st.length) →
      (∃ ni', (l.foldl (ensureStep i) st)[i]? = some ni' ∧ ni'.id = ni.id) ∧
      ∀ j ∈ l, ∃ idj : String,
        (st[j]?).map NetworkNode.id = some idj ∧
        (∃ ni', (l.foldl (ensureStep i) st)[i]? = some ni' ∧ idj ∈ ni'.connectedNodes) ∧
        (∃ nj', (l.foldl (ensureStep i) st)[j]? = some nj' ∧ ni.id ∈ nj'.connectedNodes) := by
  intro l
  induction l with
  | nil =>
      intro st ni hi _ _
      exact ⟨⟨ni, hi, rfl⟩, fun j hj => absurd hj (List.not_mem_nil j)⟩
  | cons j0 l ih =>
      intro st ni hi hne hlt
      have hj0ne : j0 ≠ i := hne j0 (List.mem_cons_self ..)
      have hj0lt : j0 < st.length := hlt j0 (List.mem_cons_self ..)
      have hnj0 : st[j0]? = some st[j0] := List.getElem?_eq_getElem hj0lt
      have hest := ensureStep_establishes i j0 st ni st[j0] hi hnj0 hj0ne
      have hgrow1 : ConnGrows st (ensureStep i st j0) := connGrows_ensureStep i st j0
      have hlen1 : (ensureStep i st j0).length = st.length := hgrow1.1
      have hfold : (j0 :: l).foldl (ensureStep i) st =
          l.foldl (ensureStep i) (ensureStep i st j0) := rfl
      have ihres := ih (ensureStep i st j0) (pushConn ni (st[j0]).id) hest.1
        (fun j hj => hne j (List.mem_cons_of_mem _ hj))
        (fun j hj => by rw [hlen1]; exact hlt j (List.mem_cons_of_mem _ hj))
      obtain ⟨⟨ni', hni', hid'⟩, hall⟩ := ihres
      have hgrow2 : ConnGrows (ensureStep i st j0) (l.foldl (ensureStep i) (ensureStep i st j0)) :=
        connGrows_foldl (connGrows_ensureStep i) l _
      constructor
      · rw [hfold]
        exact ⟨ni', hni', hid'.trans (pushConn_fields ni (st[j0]).id).1⟩
      · intro j hj
        rcases List.mem_cons.mp hj with rfl | hjl
        · -- the position processed by this very step
          refine ⟨(st[j]).id, by rw [hnj0]; rfl, ?_, ?_⟩
          · obtain ⟨ni'', hni'', _, _, _, hsub⟩ := hgrow2.2 i _ hest.1
            rw [hfold]
            exact ⟨ni'', hni'',
              hsub _ (pushConn_fields ni (st[j]).id).2.2.2.2⟩
          · obtain ⟨nj'', hnj'', _, _, _, hsub⟩ := hgrow2.2 j _ hest.2
            rw [hfold]
            exact ⟨nj'', hnj'',
              hsub _ (pushConn_fields st[j] ni.id).2.2.2.2⟩
        · -- a later position: use the induction hypothesis and translate ids
          obtain ⟨idj, hidj, hmi, hmj⟩ := hall j hjl
          have hjlt : j < st.length := hlt j (List.mem_cons_of_mem _ hjl)
          have hjst : st[j]? = some st[j] := List.getElem?_eq_getElem hjlt
          obtain ⟨mj1, hmj1, hmjid, _, _, _⟩ := hgrow1.2 j _ hjst
          refine ⟨idj, ?_, by rw [hfold]; exact hmi, ?_⟩
          · rw [hmj1] at hidj
            rw [hjst]
            simp only [Option.map_some'] at hidj ⊢
            rw [← hmjid]
            exact hidj
          · obtain ⟨nj', hnj', hmem⟩ := hmj
            refine ⟨nj', by rw [hfold]; exact hnj', ?_⟩
            have : (pushConn ni (st[j0]).id).id = ni.id := (pushConn_fields ..).1
            rw [← this]
            exact hmem

theorem ipfsPositions_lt (st : List NetworkNode) : ∀ j ∈ ipfsPositions st, j < st.length := by
  intro j hj
  exact List.mem_range.mp (List.mem_filter.mp hj).1

theorem mem_ipfsPositions (st : List NetworkNode) (j : Nat) :
    j ∈ ipfsPositions st ↔ ∃ m, st[j]? = some m ∧ m.type = NodeType.ipfs := by
  unfold ipfsPositions
  rw [List.mem_filter, List.mem_range]
  constructor
  · rintro ⟨hlt, hty⟩
    simp only [decide_eq_true_eq] at hty
    refine ⟨st[j], List.getElem?_eq_getElem hlt, ?_⟩
    rwa [List.getD_eq_getElem?_getD, List.getElem?_eq_getElem hlt] at hty
  · rintro ⟨m, hm, hty⟩
    have hlt : j < st.length := by
      by_contra hge
      rw [List.getElem?_eq_none (by omega)] at hm
      cases hm
    refine ⟨hlt, ?_⟩
    simp only [decide_eq_true_eq]
    rw [List.getD_eq_getElem?_getD, hm]
    exact hty

theorem connGrows_initStep (ks : Nat → Nat) (draws : Nat → Nat → Nat)
    (st : List NetworkNode) (i : Nat) :
    ConnGrows st (initStep ks draws st i) := by
  unfold initStep
  cases hi : st[i]? with
  | none => exact connGrows_refl st
  | some node =>
      dsimp only
      set w := wireNode node.connectedNodes
        ((st.filter (fun n => n.id ≠ node.id)).map (·.id)) (ks i) (draws i) with hw
      have hset : ConnGrows st (st.set i { node with connectedNodes := w }) := by
        refine ⟨List.length_set .., ?_⟩
        intro q m hq
        rw [List.getElem?_set]
        by_cases hiq : i = q
        · subst hiq
          have hlt : i < st.length := by
            by_contra hge
            rw [List.getElem?_eq_none (by omega)] at hq
            cases hq
          rw [if_pos rfl, if_pos hlt]
          rw [hi] at hq
          cases hq
          refine ⟨_, rfl, rfl, rfl, rfl, ?_⟩
          intro x hx
          rw [hw]
          exact wireNode_mem_mono _ _ _ _ x hx
        · rw [if_neg hiq]
          exact ⟨m, hq, rfl, rfl, rfl, fun _ hx => hx⟩
      split
      · exact connGrows_trans hset
          (connGrows_foldl (connGrows_ensureStep i) _ _)
      · exact hset

theorem llmIpfsLinked_of_connGrows {st st' : List NetworkNode}
    (hg : ConnGrows st st') (hl : LlmIpfsLinked st) : LlmIpfsLinked st' := by
  intro p n' hp'
  have hp : p < st.length := by
    have h1 : p < st'.length := by
      by_contra hge
      rw [List.getElem?_eq_none (by omega)] at hp'
      cases hp'
    have := hg.1
    omega
  obtain ⟨n2, hpn2, hid, hty, _, hsub⟩ := hg.2 p st[p] (List.getElem?_eq_getElem hp)
  rw [hp'] at hpn2
  cases hpn2
  constructor
  · intro hid' q m' hq' hty'
    have hq : q < st.length := by
      have h1 : q < st'.length := by
        by_contra hge
        rw [List.getElem?_eq_none (by omega)] at hq'
        cases hq'
      have := hg.1
      omega
    obtain ⟨m2, hqm2, hmid, hmty, _, _⟩ := hg.2 q st[q] (List.getElem?_eq_getElem hq)
    rw [hq'] at hqm2
    cases hqm2
    have hmem := (hl p st[p] (List.getElem?_eq_getElem hp)).1 (by rw [← hid]; exact hid')
      q st[q] (List.getElem?_eq_getElem hq) (by rw [← hmty]; exact hty')
    rw [← hmid] at hmem
    exact hsub _ hmem
  · intro hty'
    have hmem := (hl p st[p] (List.getElem?_eq_getElem hp)).2 (by rw [← hty]; exact hty')
    exact hsub _ hmem

theorem initialNodes_llm_pos (f : Nat → Bool) (t : Nat) :
    ∀ (p : Nat) (n : NetworkNode), (initialNodes f t)[p]? = some n →
      n.id = "llm-main" → p = 0 := by
  intro p n hp hid
  have hlen : (initialNodes f t).length = 21 := rfl
  have hlt : p < 21 := by
    by_contra hge
    rw [List.getElem?_eq_none (by omega)] at hp
    cases hp
  have hmap : ((initialNodes f t).map NetworkNode.id)[p]? = some "llm-main" := by
    rw [List.getElem?_map, hp]
    rw [Option.map_some']
    rw [hid]
  have hlist : (initialNodes f t).map NetworkNode.id =
      ["llm-main", "ipfs-0", "ipfs-1", "ipfs-2", "ipfs-3", "ipfs-4",
       "node-0", "node-1", "node-2", "node-3", "node-4", "node-5", "node-6",
       "node-7", "node-8", "node-9", "node-10", "node-11", "node-12", "node-13",
       "node-14"] := rfl
  rw [hlist] at hmap
  interval_cases p
  · rfl
  all_goals exact absurd hmap (by decide)

theorem llmIpfsLinked_initStep0 (ks : Nat → Nat) (draws : Nat → Nat → Nat)
    (ns : List NetworkNode) (n0 : NetworkNode)
    (h0 : ns[0]? = some n0) (hid0 : n0.id = "llm-main")
    (hty0 : n0.type ≠ NodeType.ipfs)
    (huniq : ∀ (p : Nat) (n : NetworkNode), ns[p]? = some n → n.id = "llm-main" → p = 0) :
    LlmIpfsLinked (initStep ks draws ns 0) := by
  have hlen0 : 0 < ns.length := by
    by_contra hge
    rw [List.getElem?_eq_none (by omega)] at h0
    cases h0
  set w : List String :=
    wireNode n0.connectedNodes ((ns.filter (fun n => n.id ≠ n0.id)).map (·.id)) (ks 0) (draws 0)
    with hw
  set rec0 : NetworkNode := { n0 with connectedNodes := w } with hrec0
  set st1 : List NetworkNode := ns.set 0 rec0 with hst1
  have hstep : initStep ks draws ns 0 = (ipfsPositions st1).foldl (ensureStep 0) st1 := by
    unfold initStep
    rw [h0]
    dsimp only
    rw [if_pos hid0]
    rfl
  rw [hstep]
  have hst1_0 : st1[0]? = some rec0 := by
    rw [hst1, List.getElem?_set, if_pos rfl, if_pos hlen0]
  set ipos : List Nat := ipfsPositions st1 with hipos
  have hne : ∀ j ∈ ipos, j ≠ 0 := by
    intro j hj hj0
    subst hj0
    rw [hipos] at hj
    obtain ⟨m, hm, hty⟩ := (mem_ipfsPositions st1 0).mp hj
    rw [hst1_0] at hm
    cases hm
    exact hty0 hty
  have hlt' : ∀ j ∈ ipos, j < st1.length := by
    rw [hipos]
    exact ipfsPositions_lt st1
  have hest := ensure_fold_establishes 0 ipos st1 rec0 hst1_0 hne hlt'
  have hg2 : ConnGrows st1 (ipos.foldl (ensureStep 0) st1) :=
    connGrows_foldl (connGrows_ensureStep 0) ipos st1
  intro p n hp
  have hplt : p < st1.length := by
    have h1 : p < (ipos.foldl (ensureStep 0) st1).length := by
      by_contra hge
      rw [List.getElem?_eq_none (by omega)] at hp
      cases hp
    have := hg2.1
    omega
  obtain ⟨np, hnp⟩ : ∃ x, st1[p]? = some x := ⟨st1[p], List.getElem?_eq_getElem hplt⟩
  obtain ⟨n2, hn2, hid2, hty2, _, hsub2⟩ := hg2.2 p np hnp
  rw [hp] at hn2
  cases hn2
  constructor
  · intro hidn q m hq htym
    by_cases hp0 : p = 0
    · subst hp0
      have hqlt : q < st1.length := by
        have h1 : q < (ipos.foldl (ensureStep 0) st1).length := by
          by_contra hge
          rw [List.getElem?_eq_none (by omega)] at hq
          cases hq
        have := hg2.1
        omega
      obtain ⟨nq, hnq⟩ : ∃ x, st1[q]? = some x := ⟨st1[q], List.getElem?_eq_getElem hqlt⟩
      obtain ⟨m2, hm2, hmid2, hmty2, _, _⟩ := hg2.2 q nq hnq
      rw [hq] at hm2
      cases hm2
      have hqpos : q ∈ ipos := by
        rw [hipos]
        exact (mem_ipfsPositions st1 q).mpr ⟨nq, hnq, by rw [← hmty2]; exact htym⟩
      obtain ⟨idq, hidq, ⟨ni', hni', hmemi⟩, -⟩ := hest.2 q hqpos
      have hidq' : idq = nq.id := by
        rw [hnq, Option.map_some'] at hidq
        injection hidq with h
        exact h.symm
      rw [hp] at hni'
      cases hni'
      rw [hmid2, ← hidq']
      exact hmemi
    · exfalso
      have hstp : st1[p]? = ns[p]? := by
        rw [hst1, List.getElem?_set, if_neg (fun h => hp0 h.symm)]
      have hnsp : ns[p]? = some np := by
        rw [← hstp]
        exact hnp
      exact hp0 (huniq p np hnsp (by rw [← hid2]; exact hidn))
  · intro htyn
    have hppos : p ∈ ipos := by
      rw [hipos]
      exact (mem_ipfsPositions st1 p).mpr ⟨np, hnp, by rw [← hty2]; exact htyn⟩
    obtain ⟨idp, -, -, ⟨nj', hnj', hmemj⟩⟩ := hest.2 p hppos
    rw [hp] at hnj'
    cases hnj'
    have hrid : rec0.id = "llm-main" := hid0
    rw [← hrid]
    exact hmemj

theorem llmIpfsLinked_after_step0 (f : Nat → Bool) (ks : Nat → Nat)
    (draws : Nat → Nat → Nat) (t : Nat) :
    LlmIpfsLinked (initStep ks draws (initialNodes f t) 0) :=
  llmIpfsLinked_initStep0 ks draws (initialNodes f t)
    { id := "llm-main", type := NodeType.llm, isActive := true, connectedNodes := [],
      createdAt := t, lastSeen := t }
    rfl rfl (by intro h; cases h) (initialNodes_llm_pos f t)

/-- C2: after `initializeNetwork`, for every random outcome, every node
with the assistant id `llm-main` lists every content-store (`ipfs`) node's
id among its connections, and every content-store node lists `llm-main`. -/
theorem initializeNetwork_llm_ipfs (activeFlag : Nat → Bool) (ks : Nat → Nat)
    (draws : Nat → Nat → Nat) (now : Nat) :
    ∀ n ∈ initializeNetwork activeFlag ks draws now,
      (n.id = "llm-main" → ∀ m ∈ initializeNetwork activeFlag ks draws now,
         m.type = NodeType.ipfs → m.id ∈ n.connectedNodes) ∧
      (n.type = NodeType.ipfs → "llm-main" ∈ n.connectedNodes) := by
  have hlinked : LlmIpfsLinked (initializeNetwork activeFlag ks draws now) := by
    unfold initializeNetwork
    dsimp only
    have hrange : List.range (initialNodes activeFlag now).length =
        0 :: (List.range 20).map Nat.succ := by
      rw [show (initialNodes activeFlag now).length = 20 + 1 from rfl,
        List.range_succ_eq_map]
    rw [hrange, List.foldl_cons]
    exact llmIpfsLinked_of_connGrows
      (connGrows_foldl (connGrows_initStep ks draws) _ _)
      (llmIpfsLinked_after_step0 activeFlag ks draws now)
  intro n hn
  obtain ⟨p, hp⟩ := List.mem_iff_getElem?.mp hn
  have hcl := hlinked p n hp
  refine ⟨?_, hcl.2⟩
  intro hid m hm hty
  obtain ⟨q, hq⟩ := List.mem_iff_getElem?.mp hm
  exact hcl.1 hid q m hq hty

/-- C2 witness: with the all-active, always-draw-0 oracle, the first
content-store node of the concrete initialized network lists
`llm-main`. -/
theorem initializeNetwork_llm_ipfs_witness :
    "llm-main" ∈
      ({ id := "ipfs-0", type := NodeType.ipfs, isActive := true,
         connectedNodes := ["llm-main"], createdAt := 0,
         lastSeen := 0 } : NetworkNode).connectedNodes :=
  (initializeNetwork_llm_ipfs (fun _ => true) (fun _ => 2) (fun _ _ => 0) 0
    { id := "ipfs-0", type := NodeType.ipfs, isActive := true,
      connectedNodes := ["llm-main"], createdAt := 0, lastSeen := 0 }
    (by decide)).2 (by decide)

end DeAI
